import Mathlib

/-!
Verification of the retention-policy / cleanup engine of `prune-github-images`
(`src/main.py`, class `GithubPackageCleaner`) against its specification.

The shallow embedding below mirrors the Python source:

* `PackageVersion`, `Package` — the `TypedDict`s of `main.py` (lines 8–17).
  A version's raw JSON record may lack the `"metadata"`, `"container"` or
  `"tags"` keys, so those levels are wrapped in `Option` (outer `Option` =
  key present?); the value under `"tags"` is itself `list[str] | None`
  (inner `Option`).
* `tampMatch` — the compiled regex `TAMP_TAG = ^(temp|poc|feat|dev|debug)-.*$`
  applied with `re.match` (line 20 / 73).
* `parseTimestamp` — `datetime.strptime(s, "%Y-%m-%dT%H:%M:%SZ")` followed by
  `.replace(tzinfo=timezone.utc)` (lines 56–58), mapped to seconds since
  0001-01-01T00:00:00 UTC.  Failure (`ValueError`) is `none`.
* `is_tags_safe_to_delete`, `get_outdated_versions`, `get_packages`,
  `delete_package_version`, `clean_outdated_packages` — the methods of
  `GithubPackageCleaner`.  The remote registry is an explicit `Gateway`
  oracle; Python exceptions become `Except Err`.  The call
  `datetime.now(timezone.utc)` (line 52) executes once per
  `get_outdated_versions` invocation, i.e. once per processed package, so the
  orchestrator threads a clock oracle `clock : Nat → Int` and hands read
  number `k` to the `k`-th processed package.
-/

/-- Error taxonomy of the Python exceptions that the source can raise while
classifying and deleting: `ValueError` from `datetime.strptime`, `KeyError`
from the nested dict lookups, and a `GithubException` from a failed
DELETE request. -/
inductive Err where
  | valueError
  | keyError
  | deleteFailed
deriving DecidableEq, Repr

/-- Value found under `metadata["container"]`: the `"tags"` key may be absent
(outer `Option`), and when present it holds `list[str] | None`
(inner `Option`, `none` = Python `None`). -/
structure ContainerMeta where
  tags : Option (Option (List String))
deriving DecidableEq, Repr

/-- Value found under `version["metadata"]`: the `"container"` key may be
absent. -/
structure VersionMetadata where
  container : Option ContainerMeta
deriving DecidableEq, Repr

/-- `PackageVersion` TypedDict (main.py lines 8–11); `metadata` may be absent
in the raw record. -/
structure PackageVersion where
  id : Int
  created_at : String
  metadata : Option VersionMetadata
deriving DecidableEq, Repr

/-- `Package` TypedDict (main.py lines 14–17). -/
structure Package where
  id : Int
  name : String
  version_count : Int
deriving DecidableEq, Repr

/-- `Except` result is `ok` (no exception was raised). -/
def isOkE {α : Type} (r : Except Err α) : Bool :=
  match r with
  | .ok _ => true
  | .error _ => false

/-! ## The tag regex `TAMP_TAG = re.compile(r"^(temp|poc|feat|dev|debug)-.*$")` -/

/-- Bool test that `p` is an initial segment of `s` (used both for the regex
alternation and for `str.startswith`). -/
def listStarts : List Char → List Char → Bool
  | [], _ => true
  | _ :: _, [] => false
  | a :: p, b :: s => a == b && listStarts p s

/-- Can `.*$` (with `.` not matching a newline, `$` matching at the end of the
string or just before a terminal newline — Python `re` semantics) consume this
remainder?  True iff the remainder has no newline, or exactly one newline as
its final character. -/
def dollarTail : List Char → Bool
  | [] => true
  | ['\n'] => true
  | c :: rest => c != '\n' && dollarTail rest

/-- The five alternatives of the regex group, each with the mandatory hyphen. -/
def tampAlternatives : List (List Char) :=
  ["temp-", "poc-", "feat-", "dev-", "debug-"].map String.toList

/-- `TAMP_TAG.match(tag) is not None` (main.py line 73): anchored,
case-sensitive match of `^(temp|poc|feat|dev|debug)-.*$`. -/
def tampMatch (tag : String) : Bool :=
  tampAlternatives.any fun p => listStarts p tag.toList && dollarTail (tag.toList.drop p.length)

/-- `is_tags_safe_to_delete` (main.py lines 67–75).  `none` is Python `None`;
`not tags` is true for both `None` and `[]`. -/
def is_tags_safe_to_delete (tags : Option (List String)) : Bool :=
  match tags with
  | none => true
  | some [] => true
  | some [tag] => tampMatch tag
  | some _ => false

/-! ## `datetime.strptime(s, "%Y-%m-%dT%H:%M:%SZ")` (main.py lines 56–58)

CPython `_strptime` compiles the format string to a case-insensitive regex in
which `%Y` becomes `\d\d\d\d`, each of `%m %d %H %M %S` becomes `\d{1,2}`,
and the literals `-`, `T`, `:`, `Z` stand for themselves (`T`/`Z`
case-insensitively); the whole input must be consumed.  The captured numbers
are then passed to the `datetime` constructor, which range-checks them
(year ≥ 1, 1 ≤ month ≤ 12, 1 ≤ day ≤ days-in-month, hour ≤ 23, minute ≤ 59,
second ≤ 59) and raises `ValueError` otherwise.  For this format the greedy
deterministic scan below is equivalent to the backtracking regex, because
every `\d{1,2}` is followed by a non-digit literal. -/

/-- Numeric value of a decimal digit character. -/
def digitVal (c : Char) : Nat := c.toNat - '0'.toNat

/-- Scan one or two decimal digits, greedily (`\d{1,2}`). -/
def takeDigits2 : List Char → Option (Nat × List Char)
  | [] => none
  | c1 :: rest1 =>
    if c1.isDigit then
      match rest1 with
      | c2 :: rest2 =>
        if c2.isDigit then some (10 * digitVal c1 + digitVal c2, rest2)
        else some (digitVal c1, rest1)
      | [] => some (digitVal c1, [])
    else none

/-- Scan exactly four decimal digits (`\d\d\d\d`, the `%Y` directive). -/
def takeDigits4 : List Char → Option (Nat × List Char)
  | c1 :: c2 :: c3 :: c4 :: rest =>
    if c1.isDigit && c2.isDigit && c3.isDigit && c4.isDigit then
      some (((digitVal c1 * 10 + digitVal c2) * 10 + digitVal c3) * 10 + digitVal c4, rest)
    else none
  | _ => none

/-- Consume one literal character drawn from the allowed alternatives. -/
def expectOne (allowed : List Char) : List Char → Option (List Char)
  | c :: rest => if allowed.contains c then some rest else none
  | [] => none

/-- Scan the six numeric fields of `%Y-%m-%dT%H:%M:%SZ`, requiring the whole
input to be consumed. -/
def parseFields (s : List Char) : Option (Nat × Nat × Nat × Nat × Nat × Nat) := do
  let (y, s1) ← takeDigits4 s
  let s2 ← expectOne ['-'] s1
  let (mo, s3) ← takeDigits2 s2
  let s4 ← expectOne ['-'] s3
  let (dy, s5) ← takeDigits2 s4
  let s6 ← expectOne ['T', 't'] s5
  let (hh, s7) ← takeDigits2 s6
  let s8 ← expectOne [':'] s7
  let (mi, s9) ← takeDigits2 s8
  let s10 ← expectOne [':'] s9
  let (ss, s11) ← takeDigits2 s10
  let s12 ← expectOne ['Z', 'z'] s11
  if s12.isEmpty then some (y, mo, dy, hh, mi, ss) else none

/-- Gregorian leap-year rule used by `datetime`. -/
def isLeap (y : Nat) : Bool := y % 4 == 0 && (y % 100 != 0 || y % 400 == 0)

/-- Length of a month in the proleptic Gregorian calendar. -/
def daysInMonth (y m : Nat) : Nat :=
  if m = 2 then (if isLeap y then 29 else 28)
  else if m = 4 ∨ m = 6 ∨ m = 9 ∨ m = 11 then 30
  else 31

/-- Days in the months strictly before month `m` of year `y`. -/
def daysBeforeMonth (y : Nat) : Nat → Nat
  | 0 => 0
  | 1 => 0
  | m + 1 => daysBeforeMonth y m + daysInMonth y m

/-- Days in the years strictly before year `y` (counting from year 1). -/
def daysBeforeYear (y : Nat) : Nat :=
  365 * (y - 1) + (y - 1) / 4 + (y - 1) / 400 - (y - 1) / 100

/-- A UTC datetime as seconds since 0001-01-01T00:00:00 UTC.  Comparison of
two aware `datetime` values is equivalent to comparison of these counts. -/
def epochSecs (y mo dy hh mi ss : Nat) : Nat :=
  (daysBeforeYear y + daysBeforeMonth y mo + (dy - 1)) * 86400 + hh * 3600 + mi * 60 + ss

/-- `datetime.strptime(s, "%Y-%m-%dT%H:%M:%SZ").replace(tzinfo=timezone.utc)`
as seconds since 0001-01-01 UTC; `none` models the `ValueError` raised on any
string that does not match the fixed pattern or fails the constructor's
range checks. -/
def parseTimestamp (s : String) : Option Nat := do
  let (y, mo, dy, hh, mi, ss) ← parseFields s.toList
  if 1 ≤ y && 1 ≤ mo && mo ≤ 12 && 1 ≤ dy && dy ≤ daysInMonth y mo
      && hh ≤ 23 && mi ≤ 59 && ss ≤ 59 then
    some (epochSecs y mo dy hh mi ss)
  else none

/-! ## Data access, classification and orchestration -/

/-- `version["metadata"]["container"]["tags"]` (main.py line 60): each absent
key raises `KeyError`; the result, when present, is `list[str] | None`. -/
def getTags (v : PackageVersion) : Except Err (Option (List String)) :=
  match v.metadata with
  | none => .error .keyError
  | some md =>
    match md.container with
    | none => .error .keyError
    | some c =>
      match c.tags with
      | none => .error .keyError
      | some t => .ok t

/-- True iff one of the keys `"metadata"`, `"container"`, `"tags"` is absent
from the version record, i.e. iff line 60 raises `KeyError` on it. -/
def tagsKeyMissing (v : PackageVersion) : Bool :=
  match v.metadata with
  | none => true
  | some md =>
    match md.container with
    | none => true
    | some c => c.tags.isNone

/-- Body of the `for version in versions` loop of `get_outdated_versions`
(main.py lines 54–65): parse `created_at` (a `ValueError` propagates), read
the tags (a `KeyError` propagates), and append the version to the result when
`created_at < one_month_ago and is_tags_safe_to_delete(tags)`. -/
def outdatedLoop (oneMonthAgo : Int) : List PackageVersion → Except Err (List PackageVersion)
  | [] => .ok []
  | v :: rest =>
    match parseTimestamp v.created_at with
    | none => .error .valueError
    | some c =>
      match getTags v with
      | .error e => .error e
      | .ok tags =>
        match outdatedLoop oneMonthAgo rest with
        | .error e => .error e
        | .ok tail =>
          if decide ((c : Int) < oneMonthAgo) && is_tags_safe_to_delete tags then
            .ok (v :: tail)
          else
            .ok tail

/-- `get_outdated_versions` (main.py lines 46–65) applied to the version list
the gateway returned for the package.  `now` is the value of the
`datetime.now(timezone.utc)` call of line 52 (one fresh read per invocation);
`one_month_ago = now - timedelta(days=30)` and `timedelta(days=30)` is
`30 * 86400` seconds. -/
def get_outdated_versions (now : Int) (versions : List PackageVersion) :
    Except Err (List PackageVersion) :=
  outdatedLoop (now - 30 * 86400) versions

/-- `str.startswith`: `startsWith s p` iff `p` is an initial segment of `s`
(exact, case-sensitive). -/
def startsWith (s p : String) : Bool := listStarts p.toList s.toList

/-- The remote registry and its behaviour during one run: the package list
returned by `GET /orgs/{org}/packages`, the version list returned by
`GET .../packages/container/{name}/versions`, and whether the DELETE request
for a given (package name, version id) succeeds or raises. -/
structure Gateway where
  packages : List Package
  versions : String → List PackageVersion
  deleteOk : String → Int → Bool

/-- `get_packages` (main.py lines 36–44): keep exactly the container packages
whose name starts with the configured name filter. -/
def get_packages (g : Gateway) (pfx : String) : List Package :=
  g.packages.filter fun pkg => startsWith pkg.name pfx

/-- `delete_package_version` (main.py lines 77–84): issue the DELETE request;
a rejected request raises (`Except.error`). -/
def delete_package_version (g : Gateway) (pkg_name : String) (version_id : Int) :
    Except Err Unit :=
  if g.deleteOk pkg_name version_id then .ok () else .error .deleteFailed

/-- Inner `for version in outdated_versions` loop of `clean_outdated_packages`
(main.py lines 95–97): delete each version in listed order, setting
`has_outdated = True` after each successful call.  Returns the DELETE calls
issued (in order) and either the final `has_outdated` flag or the propagated
exception — an exception ends the loop (and the run) at once, since the
source has no try/except. -/
def deleteLoop (g : Gateway) (pkg_name : String) (has_outdated : Bool) :
    List PackageVersion → List (String × Int) × Except Err Bool
  | [] => ([], .ok has_outdated)
  | v :: rest =>
    match delete_package_version g pkg_name v.id with
    | .error e => ([(pkg_name, v.id)], .error e)
    | .ok _ =>
      let r := deleteLoop g pkg_name true rest
      ((pkg_name, v.id) :: r.1, r.2)

/-- Outer `for pkg in packages` loop of `clean_outdated_packages` (main.py
lines 93–97), processing the packages in list order.  `k` numbers the
`datetime.now` reads: the `k`-th processed package is classified against
`clock k`.  Returns the `listVersions` calls made (package names, in order),
the DELETE calls made (in order), and either the final `has_outdated` flag or
the first propagated exception. -/
def packageLoop (g : Gateway) (clock : Nat → Int) (k : Nat) (has_outdated : Bool) :
    List Package → List String × List (String × Int) × Except Err Bool
  | [] => ([], [], .ok has_outdated)
  | p :: rest =>
    match get_outdated_versions (clock k) (g.versions p.name) with
    | .error e => ([p.name], [], .error e)
    | .ok outdated =>
      let d := deleteLoop g p.name has_outdated outdated
      match d.2 with
      | .error e => ([p.name], d.1, .error e)
      | .ok h2 =>
        let r := packageLoop g clock (k + 1) h2 rest
        (p.name :: r.1, d.1 ++ r.2.1, r.2.2)

/-- `clean_outdated_packages` (main.py lines 86–102).  The returned triple is
(the `listVersions` calls, the DELETE calls, the outcome); outcome
`.ok has_outdated` corresponds to the final summary — `has_outdated = true`
prints "清理完成" (cleanup performed), `false` prints "没有找到过期的包"
(nothing outdated found) — while `.error e` is a propagated exception and no
summary is printed. -/
def clean_outdated_packages (g : Gateway) (clock : Nat → Int) (pfx : String) :
    List String × List (String × Int) × Except Err Bool :=
  packageLoop g clock 0 false (get_packages g pfx)

/-- The `listVersions` calls a run made. -/
def lvCalls (r : List String × List (String × Int) × Except Err Bool) : List String := r.1

/-- The DELETE calls a run made. -/
def delCalls (r : List String × List (String × Int) × Except Err Bool) :
    List (String × Int) := r.2.1

/-- The run's outcome: final summary flag or propagated exception. -/
def outcome (r : List String × List (String × Int) × Except Err Bool) :
    Except Err Bool := r.2.2

/-- `exceptD r` is the list carried by `ok`, or `[]` on `error`. -/
def exceptD (r : Except Err (List PackageVersion)) : List PackageVersion :=
  match r with
  | .ok l => l
  | .error _ => []

/-- The delete-verdict versions of a whole run, in processing order: for the
`k`-th processed package (judged against clock read `k`), the versions its
`get_outdated_versions` call returns, as (package name, version id) pairs.
Packages whose classification raises contribute nothing. -/
def expectedFrom (g : Gateway) (clock : Nat → Int) : Nat → List Package → List (String × Int)
  | _, [] => []
  | k, p :: rest =>
    (exceptD (get_outdated_versions (clock k) (g.versions p.name))).map
        (fun v => (p.name, v.id))
      ++ expectedFrom g clock (k + 1) rest

/-- The delete-verdict versions of a run of `clean_outdated_packages`. -/
def expectedDeletions (g : Gateway) (clock : Nat → Int) (pfx : String) :
    List (String × Int) :=
  expectedFrom g clock 0 (get_packages g pfx)

/-- `isHeadOf a b`: the list `a` is an initial segment of the list `b`. -/
def isHeadOf {α : Type} (a b : List α) : Prop := ∃ t, b = a ++ t

/-! ## Concrete test fixtures (used by witnesses and counterexamples) -/

/-- Convenience builder for a version record whose `"tags"` key is present. -/
def mkVer (i : Int) (ts : String) (tags : Option (List String)) : PackageVersion :=
  { id := i, created_at := ts, metadata := some { container := some { tags := some tags } } }

/-- The end-to-end scenario of spec §8: `writing-api` with an old untagged
version, a fresh `prod`-tagged version, and an old `poc-x`-tagged version;
plus an empty `writing-web` and a non-matching `other-svc`. -/
def gE2E : Gateway :=
  { packages := [⟨1, "writing-api", 3⟩, ⟨2, "writing-web", 0⟩, ⟨3, "other-svc", 1⟩]
    versions := fun n =>
      if n = "writing-api" then
        [mkVer 1 "2024-01-01T00:00:00Z" (some []),
         mkVer 2 "2024-02-05T00:00:00Z" (some ["prod"]),
         mkVer 3 "2024-01-06T00:00:00Z" (some ["poc-x"])]
      else []
    deleteOk := fun _ _ => true }

/-- Fixed clock for the scenario: every read is 2024-02-10T00:00:00Z. -/
def clockE2E : Nat → Int := fun _ => (epochSecs 2024 2 10 0 0 0 : Int)

/-! ## Lemmas about the classification loop -/

/-- A successful pass of the classification loop keeps exactly the versions
whose timestamp parses, whose tag lookup succeeds, and which satisfy the
line-62 condition. -/
theorem outdatedLoop_mem (oneMonthAgo : Int) :
    ∀ vs out, outdatedLoop oneMonthAgo vs = .ok out →
      ∀ v, v ∈ out ↔ v ∈ vs ∧ ∃ c tg, parseTimestamp v.created_at = some c ∧
        getTags v = .ok tg ∧
        (decide ((c : Int) < oneMonthAgo) && is_tags_safe_to_delete tg) = true := by
  intro vs
  induction vs with
  | nil =>
    intro out h v
    simp only [outdatedLoop] at h
    cases h
    simp
  | cons w rest ih =>
    intro out h v
    cases hp : parseTimestamp w.created_at with
    | none => simp [outdatedLoop, hp] at h
    | some c =>
      cases ht : getTags w with
      | error e => simp [outdatedLoop, hp, ht] at h
      | ok tg =>
        cases hr : outdatedLoop oneMonthAgo rest with
        | error e => simp [outdatedLoop, hp, ht, hr] at h
        | ok tail =>
          simp only [outdatedLoop, hp, ht, hr] at h
          by_cases hcond : (decide ((c : Int) < oneMonthAgo) && is_tags_safe_to_delete tg) = true
          · rw [if_pos hcond] at h
            cases h
            constructor
            · intro hv
              rcases List.mem_cons.mp hv with hv | hv
              · subst hv
                exact ⟨List.mem_cons_self _ _, c, tg, hp, ht, hcond⟩
              · rcases (ih tail hr v).mp hv with ⟨hv1, hv2⟩
                exact ⟨List.mem_cons_of_mem _ hv1, hv2⟩
            · rintro ⟨hvs, c', tg', hp', ht', hcond'⟩
              rcases List.mem_cons.mp hvs with hv | hv
              · subst hv
                exact List.mem_cons_self _ _
              · exact List.mem_cons_of_mem _ ((ih tail hr v).mpr ⟨hv, c', tg', hp', ht', hcond'⟩)
          · rw [if_neg hcond] at h
            cases h
            constructor
            · intro hv
              rcases (ih out hr v).mp hv with ⟨hv1, hv2⟩
              exact ⟨List.mem_cons_of_mem _ hv1, hv2⟩
            · rintro ⟨hvs, c', tg', hp', ht', hcond'⟩
              rcases List.mem_cons.mp hvs with hv | hv
              · subst hv
                rw [hp] at hp'
                cases hp'
                rw [ht] at ht'
                cases ht'
                exact absurd hcond' hcond
              · exact (ih out hr v).mpr ⟨hv, c', tg', hp', ht', hcond'⟩

/-- If any version of the list fails to parse or lacks the tag path, the
whole classification pass raises. -/
theorem outdatedLoop_bad (oneMonthAgo : Int) :
    ∀ vs v, v ∈ vs →
      (parseTimestamp v.created_at = none ∨ isOkE (getTags v) = false) →
      isOkE (outdatedLoop oneMonthAgo vs) = false := by
  intro vs
  induction vs with
  | nil =>
    intro v hv
    simp at hv
  | cons w rest ih =>
    intro v hv hbad
    cases hp : parseTimestamp w.created_at with
    | none => simp [outdatedLoop, hp, isOkE]
    | some c =>
      cases ht : getTags w with
      | error e => simp [outdatedLoop, hp, ht, isOkE]
      | ok tg =>
        cases hr : outdatedLoop oneMonthAgo rest with
        | error e =>
          simp only [outdatedLoop, hp, ht, hr]
          simp [isOkE]
        | ok tail =>
          exfalso
          rcases List.mem_cons.mp hv with hv | hv
          · subst hv
            rcases hbad with hbad | hbad
            · rw [hp] at hbad
              cases hbad
            · rw [ht] at hbad
              simp [isOkE] at hbad
          · have := ih v hv hbad
            rw [hr] at this
            simp [isOkE] at this

/-- `getTags` can only raise `KeyError`. -/
theorem getTags_err (v : PackageVersion) (e : Err) (h : getTags v = .error e) :
    e = .keyError := by
  unfold getTags at h
  split at h
  · injection h with h2; exact h2.symm
  · split at h
    · injection h with h2; exact h2.symm
    · split at h
      · injection h with h2; exact h2.symm
      · cases h

/-- The classification pass never raises the deletion error. -/
theorem outdatedLoop_ne_deleteFailed (oneMonthAgo : Int) :
    ∀ vs, outdatedLoop oneMonthAgo vs ≠ .error .deleteFailed := by
  intro vs
  induction vs with
  | nil => simp [outdatedLoop]
  | cons w rest ih =>
    intro h
    cases hp : parseTimestamp w.created_at with
    | none => simp [outdatedLoop, hp] at h
    | some c =>
      cases ht : getTags w with
      | error e =>
        simp only [outdatedLoop, hp, ht] at h
        injection h with h2
        have hk := getTags_err w e ht
        rw [h2] at hk
        exact Err.noConfusion hk
      | ok tg =>
        cases hr : outdatedLoop oneMonthAgo rest with
        | error e =>
          simp only [outdatedLoop, hp, ht, hr] at h
          injection h with h2
          rw [h2] at hr
          exact ih hr
        | ok tail =>
          simp only [outdatedLoop, hp, ht, hr] at h
          by_cases hcond : (decide ((c : Int) < oneMonthAgo) && is_tags_safe_to_delete tg) = true
          · rw [if_pos hcond] at h
            cases h
          · rw [if_neg hcond] at h
            cases h

/-- A missing key on the tag path makes `getTags` raise. -/
theorem tagsKeyMissing_getTags (v : PackageVersion) (h : tagsKeyMissing v = true) :
    isOkE (getTags v) = false := by
  cases v with
  | mk i ca md =>
    cases md with
    | none => simp [getTags, isOkE]
    | some m =>
      cases m with
      | mk cont =>
        cases cont with
        | none => simp [getTags, isOkE]
        | some c =>
          cases c with
          | mk tg =>
            cases tg with
            | none => simp [getTags, isOkE]
            | some t => simp [tagsKeyMissing] at h

/-! ## Initial-segment helper lemmas -/

/-- The empty list is an initial segment of every list. -/
theorem isHeadOf_nil {α : Type} (b : List α) : isHeadOf [] b := ⟨b, rfl⟩

/-- Every list is an initial segment of itself. -/
theorem isHeadOf_refl {α : Type} (a : List α) : isHeadOf a a := ⟨[], (List.append_nil a).symm⟩

/-- An initial segment of `b` is an initial segment of `b ++ c`. -/
theorem isHeadOf_append_right {α : Type} {a b : List α} (c : List α) (h : isHeadOf a b) :
    isHeadOf a (b ++ c) := by
  rcases h with ⟨t, ht⟩
  exact ⟨t ++ c, by rw [ht, List.append_assoc]⟩

/-- Prepending the same list preserves initial segments. -/
theorem isHeadOf_append_left {α : Type} (a : List α) {x y : List α} (h : isHeadOf x y) :
    isHeadOf (a ++ x) (a ++ y) := by
  rcases h with ⟨t, ht⟩
  exact ⟨t, by rw [ht, List.append_assoc]⟩

/-- Members of an initial segment are members of the whole list. -/
theorem isHeadOf_mem {α : Type} {a b : List α} {x : α} (h : isHeadOf a b) (hx : x ∈ a) :
    x ∈ b := by
  rcases h with ⟨t, ht⟩
  rw [ht]
  exact List.mem_append_left t hx

/-! ## Lemmas about the deletion loop -/

/-- When the deletion loop finishes without an exception it has issued one
DELETE call per listed version, in listed order. -/
theorem deleteLoop_ok_calls (g : Gateway) (nm : String) :
    ∀ l h b, (deleteLoop g nm h l).2 = .ok b →
      (deleteLoop g nm h l).1 = l.map fun v => (nm, v.id) := by
  intro l
  induction l with
  | nil => intro h b _; rfl
  | cons v rest ih =>
    intro h b hok
    by_cases hd : g.deleteOk nm v.id
    · simp only [deleteLoop, delete_package_version, if_pos hd] at hok ⊢
      rw [List.map_cons, ih true b hok]
    · simp [deleteLoop, delete_package_version, if_neg hd] at hok

/-- When the deletion loop finishes without an exception, the resulting flag
is true iff it was already true or at least one version was listed. -/
theorem deleteLoop_ok_flag (g : Gateway) (nm : String) :
    ∀ l h b, (deleteLoop g nm h l).2 = .ok b →
      (b = true ↔ (h = true ∨ l ≠ [])) := by
  intro l
  induction l with
  | nil =>
    intro h b hok
    simp only [deleteLoop] at hok
    injection hok with hok
    subst hok
    simp
  | cons v rest ih =>
    intro h b hok
    by_cases hd : g.deleteOk nm v.id
    · simp only [deleteLoop, delete_package_version, if_pos hd] at hok
      rw [ih true b hok]
      simp
    · simp [deleteLoop, delete_package_version, if_neg hd] at hok

/-- When the deletion loop finishes without an exception, every DELETE call it
issued succeeded. -/
theorem deleteLoop_ok_all (g : Gateway) (nm : String) :
    ∀ l h b, (deleteLoop g nm h l).2 = .ok b →
      ∀ y ∈ (deleteLoop g nm h l).1, g.deleteOk y.1 y.2 = true := by
  intro l
  induction l with
  | nil => intro h b _ y hy; simp [deleteLoop] at hy
  | cons v rest ih =>
    intro h b hok y hy
    by_cases hd : g.deleteOk nm v.id
    · simp only [deleteLoop, delete_package_version, if_pos hd] at hok hy
      rcases List.mem_cons.mp hy with hy | hy
      · subst hy
        exact hd
      · exact ih true b hok y hy
    · simp [deleteLoop, delete_package_version, if_neg hd] at hok

/-- If the deletion loop raised, the exception is the deletion error, the final
DELETE call is the one that failed, and every earlier call succeeded. -/
theorem deleteLoop_err (g : Gateway) (nm : String) :
    ∀ l h e, (deleteLoop g nm h l).2 = .error e →
      e = .deleteFailed ∧ ∃ p x, (deleteLoop g nm h l).1 = p ++ [x] ∧
        g.deleteOk x.1 x.2 = false ∧ ∀ y ∈ p, g.deleteOk y.1 y.2 = true := by
  intro l
  induction l with
  | nil => intro h e he; simp [deleteLoop] at he
  | cons v rest ih =>
    intro h e he
    by_cases hd : g.deleteOk nm v.id
    · simp only [deleteLoop, delete_package_version, if_pos hd] at he ⊢
      rcases ih true e he with ⟨he1, p, x, hp, hx, hall⟩
      refine ⟨he1, (nm, v.id) :: p, x, ?_, hx, ?_⟩
      · rw [hp]
        rfl
      · intro y hy
        rcases List.mem_cons.mp hy with hy | hy
        · subst hy
          exact hd
        · exact hall y hy
    · simp only [deleteLoop, delete_package_version, if_neg hd] at he ⊢
      injection he with he
      refine ⟨he.symm, [], (nm, v.id), rfl, by simpa using hd, by simp⟩

/-- The DELETE calls of the deletion loop are always an initial segment of the
calls for the whole listed sequence. -/
theorem deleteLoop_headOf (g : Gateway) (nm : String) :
    ∀ l h, isHeadOf (deleteLoop g nm h l).1 (l.map fun v => (nm, v.id)) := by
  intro l
  induction l with
  | nil => intro h; exact isHeadOf_nil _
  | cons v rest ih =>
    intro h
    by_cases hd : g.deleteOk nm v.id
    · simp only [deleteLoop, delete_package_version, if_pos hd, List.map_cons]
      have := isHeadOf_append_left [(nm, v.id)] (ih true)
      simpa using this
    · simp only [deleteLoop, delete_package_version, if_neg hd, List.map_cons]
      exact ⟨_, rfl⟩

/-! ## Lemmas about the package loop -/

/-- The `listVersions` calls are always an initial segment of the processed
package names. -/
theorem packageLoop_lv_headOf (g : Gateway) (clock : Nat → Int) :
    ∀ pkgs k h, isHeadOf (packageLoop g clock k h pkgs).1 (pkgs.map Package.name) := by
  intro pkgs
  induction pkgs with
  | nil => intro k h; exact isHeadOf_nil _
  | cons p rest ih =>
    intro k h
    cases ho : get_outdated_versions (clock k) (g.versions p.name) with
    | error e =>
      simp only [packageLoop, ho, List.map_cons]
      exact ⟨_, rfl⟩
    | ok outdated =>
      cases hd : (deleteLoop g p.name h outdated).2 with
      | error e =>
        simp only [packageLoop, ho, hd, List.map_cons]
        exact ⟨_, rfl⟩
      | ok h2 =>
        simp only [packageLoop, ho, hd, List.map_cons]
        have := isHeadOf_append_left [p.name] (ih (k + 1) h2)
        simpa using this

/-- When the run finishes without an exception, `listVersions` was called for
every processed package, in order. -/
theorem packageLoop_lv_complete (g : Gateway) (clock : Nat → Int) :
    ∀ pkgs k h b, (packageLoop g clock k h pkgs).2.2 = .ok b →
      (packageLoop g clock k h pkgs).1 = pkgs.map Package.name := by
  intro pkgs
  induction pkgs with
  | nil => intro k h b _; rfl
  | cons p rest ih =>
    intro k h b hok
    cases ho : get_outdated_versions (clock k) (g.versions p.name) with
    | error e => simp [packageLoop, ho] at hok
    | ok outdated =>
      cases hd : (deleteLoop g p.name h outdated).2 with
      | error e => simp [packageLoop, ho, hd] at hok
      | ok h2 =>
        simp only [packageLoop, ho, hd] at hok ⊢
        rw [List.map_cons, ih (k + 1) h2 b hok]

/-- The DELETE calls are always an initial segment of the run's delete-verdict
sequence. -/
theorem packageLoop_del_headOf (g : Gateway) (clock : Nat → Int) :
    ∀ pkgs k h, isHeadOf (packageLoop g clock k h pkgs).2.1 (expectedFrom g clock k pkgs) := by
  intro pkgs
  induction pkgs with
  | nil => intro k h; exact isHeadOf_nil _
  | cons p rest ih =>
    intro k h
    cases ho : get_outdated_versions (clock k) (g.versions p.name) with
    | error e =>
      simp only [packageLoop, ho]
      exact isHeadOf_nil _
    | ok outdated =>
      cases hd : (deleteLoop g p.name h outdated).2 with
      | error e =>
        simp only [packageLoop, ho, hd, expectedFrom, exceptD]
        exact isHeadOf_append_right _ (by simpa using deleteLoop_headOf g p.name outdated h)
      | ok h2 =>
        simp only [packageLoop, ho, hd, expectedFrom, exceptD]
        rw [deleteLoop_ok_calls g p.name outdated h h2 hd]
        exact isHeadOf_append_left _ (ih (k + 1) h2)

/-- When the run finishes without an exception, the DELETE calls are exactly
the run's delete-verdict sequence. -/
theorem packageLoop_del_complete (g : Gateway) (clock : Nat → Int) :
    ∀ pkgs k h b, (packageLoop g clock k h pkgs).2.2 = .ok b →
      (packageLoop g clock k h pkgs).2.1 = expectedFrom g clock k pkgs := by
  intro pkgs
  induction pkgs with
  | nil => intro k h b _; rfl
  | cons p rest ih =>
    intro k h b hok
    cases ho : get_outdated_versions (clock k) (g.versions p.name) with
    | error e => simp [packageLoop, ho] at hok
    | ok outdated =>
      cases hd : (deleteLoop g p.name h outdated).2 with
      | error e => simp [packageLoop, ho, hd] at hok
      | ok h2 =>
        simp only [packageLoop, ho, hd, expectedFrom, exceptD] at hok ⊢
        rw [deleteLoop_ok_calls g p.name outdated h h2 hd, ih (k + 1) h2 b hok]

/-- When the run finishes without an exception, the final flag is true iff it
started true or some DELETE call was made. -/
theorem packageLoop_flag (g : Gateway) (clock : Nat → Int) :
    ∀ pkgs k h b, (packageLoop g clock k h pkgs).2.2 = .ok b →
      (b = true ↔ (h = true ∨ (packageLoop g clock k h pkgs).2.1 ≠ [])) := by
  intro pkgs
  induction pkgs with
  | nil =>
    intro k h b hok
    simp only [packageLoop] at hok ⊢
    injection hok with hok
    subst hok
    simp
  | cons p rest ih =>
    intro k h b hok
    cases ho : get_outdated_versions (clock k) (g.versions p.name) with
    | error e => simp [packageLoop, ho] at hok
    | ok outdated =>
      cases hd : (deleteLoop g p.name h outdated).2 with
      | error e => simp [packageLoop, ho, hd] at hok
      | ok h2 =>
        simp only [packageLoop, ho, hd] at hok ⊢
        rw [ih (k + 1) h2 b hok, deleteLoop_ok_flag g p.name outdated h h2 hd]
        rw [deleteLoop_ok_calls g p.name outdated h h2 hd]
        constructor
        · rintro (⟨hh | hl⟩ | htr)
          · exact Or.inl hh
          · right
            intro hemp
            rcases List.append_eq_nil.mp hemp with ⟨he1, _⟩
            exact hl (List.map_eq_nil_iff.mp he1)
          · right
            intro hemp
            rcases List.append_eq_nil.mp hemp with ⟨_, he2⟩
            exact htr he2
        · rintro (hh | htr)
          · exact Or.inl (Or.inl hh)
          · by_cases he1 : outdated = []
            · subst he1
              right
              simpa using htr
            · exact Or.inl (Or.inr he1)

/-- Unless the run raised the deletion error, every DELETE call it made
succeeded. -/
theorem packageLoop_all_ok (g : Gateway) (clock : Nat → Int) :
    ∀ pkgs k h, (packageLoop g clock k h pkgs).2.2 ≠ .error .deleteFailed →
      ∀ y ∈ (packageLoop g clock k h pkgs).2.1, g.deleteOk y.1 y.2 = true := by
  intro pkgs
  induction pkgs with
  | nil => intro k h _ y hy; simp [packageLoop] at hy
  | cons p rest ih =>
    intro k h hne y hy
    cases ho : get_outdated_versions (clock k) (g.versions p.name) with
    | error e => simp [packageLoop, ho] at hy
    | ok outdated =>
      cases hd : (deleteLoop g p.name h outdated).2 with
      | error e =>
        simp only [packageLoop, ho, hd] at hne hy
        rcases deleteLoop_err g p.name outdated h e hd with ⟨he, _⟩
        subst he
        exact absurd rfl hne
      | ok h2 =>
        simp only [packageLoop, ho, hd] at hne hy
        rcases List.mem_append.mp hy with hy | hy
        · exact deleteLoop_ok_all g p.name outdated h h2 hd y hy
        · exact ih (k + 1) h2 hne y hy

/-- If the run raised the deletion error, the last DELETE call it made is the
one that failed and every earlier one succeeded. -/
theorem packageLoop_del_err (g : Gateway) (clock : Nat → Int) :
    ∀ pkgs k h, (packageLoop g clock k h pkgs).2.2 = .error .deleteFailed →
      ∃ p x, (packageLoop g clock k h pkgs).2.1 = p ++ [x] ∧
        g.deleteOk x.1 x.2 = false ∧ ∀ y ∈ p, g.deleteOk y.1 y.2 = true := by
  intro pkgs
  induction pkgs with
  | nil => intro k h he; simp [packageLoop] at he
  | cons p rest ih =>
    intro k h he
    cases ho : get_outdated_versions (clock k) (g.versions p.name) with
    | error e =>
      simp only [packageLoop, ho] at he
      injection he with he
      rw [he] at ho
      exact absurd ho (outdatedLoop_ne_deleteFailed _ _)
    | ok outdated =>
      cases hd : (deleteLoop g p.name h outdated).2 with
      | error e =>
        simp only [packageLoop, ho, hd] at he ⊢
        rcases deleteLoop_err g p.name outdated h e hd with ⟨_, q, x, hq, hx, hall⟩
        exact ⟨q, x, hq, hx, hall⟩
      | ok h2 =>
        simp only [packageLoop, ho, hd] at he ⊢
        rcases ih (k + 1) h2 he with ⟨q, x, hq, hx, hall⟩
        refine ⟨(deleteLoop g p.name h outdated).1 ++ q, x, ?_, hx, ?_⟩
        · rw [hq, List.append_assoc]
        · intro y hy
          rcases List.mem_append.mp hy with hy | hy
          · exact deleteLoop_ok_all g p.name outdated h h2 hd y hy
          · exact hall y hy

/-- The run consults the clock only through the reads numbered below the
count of processed packages: two clocks agreeing there yield identical runs. -/
theorem packageLoop_clock_ext (g : Gateway) :
    ∀ pkgs k h (c1 c2 : Nat → Int), (∀ j, j < pkgs.length → c1 (k + j) = c2 (k + j)) →
      packageLoop g c1 k h pkgs = packageLoop g c2 k h pkgs := by
  intro pkgs
  induction pkgs with
  | nil => intro k h c1 c2 _; rfl
  | cons p rest ih =>
    intro k h c1 c2 hagree
    have h0 : c1 k = c2 k := by simpa using hagree 0 (by simp)
    have hrest : ∀ j, j < rest.length → c1 (k + 1 + j) = c2 (k + 1 + j) := by
      intro j hj
      have := hagree (j + 1) (by simp; omega)
      simpa [Nat.add_assoc, Nat.add_comm 1 j] using this
    have hrec : ∀ h2, packageLoop g c1 (k + 1) h2 rest = packageLoop g c2 (k + 1) h2 rest :=
      fun h2 => ih (k + 1) h2 c1 c2 hrest
    simp only [packageLoop, h0, hrec]

/-! ## Claim theorems -/

/-- Claim C2: for every version of a successfully classified list, the
retention verdict is "delete" (membership in the outdated list) iff
`createdAt < now - 30 days` (strict) AND the tag classifier accepts the tags;
neither condition alone suffices and a version created exactly 30 days before
`now` is kept. -/
theorem claim2_retention_verdict (now : Int) (vs out : List PackageVersion)
    (v : PackageVersion) (c : Nat) (tg : Option (List String))
    (hrun : get_outdated_versions now vs = .ok out) (hv : v ∈ vs)
    (hc : parseTimestamp v.created_at = some c) (ht : getTags v = .ok tg) :
    v ∈ out ↔ ((c : Int) < now - 30 * 86400 ∧ is_tags_safe_to_delete tg = true) := by
  rw [outdatedLoop_mem (now - 30 * 86400) vs out hrun v]
  constructor
  · rintro ⟨_, c', tg', hc', ht', hcond⟩
    rw [hc] at hc'
    injection hc' with hcc
    subst hcc
    rw [ht] at ht'
    injection ht' with htt
    subst htt
    simpa using hcond
  · rintro ⟨h1, h2⟩
    exact ⟨hv, c, tg, hc, ht, by simp only [Bool.and_eq_true, decide_eq_true_eq]; exact ⟨h1, h2⟩⟩

/-- The spec §8 scenario version list of package `writing-api`. -/
def vsW : List PackageVersion :=
  [mkVer 1 "2024-01-01T00:00:00Z" (some []),
   mkVer 2 "2024-02-05T00:00:00Z" (some ["prod"]),
   mkVer 3 "2024-01-06T00:00:00Z" (some ["poc-x"])]

/-- Witness for C2: in the §8 scenario (now = 2024-02-10), the 40-day-old
untagged version is in the delete list. -/
theorem claim2_witness :
    mkVer 1 "2024-01-01T00:00:00Z" (some []) ∈
      [mkVer 1 "2024-01-01T00:00:00Z" (some []),
       mkVer 3 "2024-01-06T00:00:00Z" (some ["poc-x"])] :=
  (claim2_retention_verdict (epochSecs 2024 2 10 0 0 0) vsW
      [mkVer 1 "2024-01-01T00:00:00Z" (some []),
       mkVer 3 "2024-01-06T00:00:00Z" (some ["poc-x"])]
      (mkVer 1 "2024-01-01T00:00:00Z" (some [])) 63839664000 (some [])
      rfl (by decide) rfl rfl).mpr ⟨by decide, rfl⟩

/-- Claim C3: the tag classifier returns true for zero tags; for exactly one
tag it returns the anchored case-sensitive regex verdict of
`^(temp|poc|feat|dev|debug)-.*$`; for two or more tags it returns false
regardless of content.  Sample tags behave as the spec lists. -/
theorem claim3_tag_safety :
    is_tags_safe_to_delete (some []) = true
    ∧ (∀ t : String, is_tags_safe_to_delete (some [t]) = tampMatch t)
    ∧ (∀ l : List String, 2 ≤ l.length → is_tags_safe_to_delete (some l) = false)
    ∧ tampMatch "temp-2024" = true ∧ tampMatch "poc-x" = true
    ∧ tampMatch "feat-1" = true ∧ tampMatch "dev-a" = true
    ∧ tampMatch "debug-b" = true ∧ tampMatch "tempest-1" = false
    ∧ tampMatch "latest" = false ∧ tampMatch "v1.2.3" = false
    ∧ tampMatch "Temp-1" = false ∧ tampMatch "temp" = false := by
  refine ⟨rfl, fun t => rfl, ?_, by decide, by decide, by decide, by decide, by decide,
    by decide, by decide, by decide, by decide, by decide⟩
  intro l hl
  cases l with
  | nil => simp at hl
  | cons a as =>
    cases as with
    | nil => simp at hl
    | cons b bs => rfl

/-- Witness for C3: a two-tag list is rejected even though both tags are
disposable-looking. -/
theorem claim3_witness : is_tags_safe_to_delete (some ["temp-1", "temp-2"]) = false :=
  claim3_tag_safety.2.2.1 ["temp-1", "temp-2"] (by decide)

/-- Claim C9: the classifier treats an absent tag list (Python `None`) exactly
like an explicitly empty list — both are safe. -/
theorem claim9_none_tags :
    is_tags_safe_to_delete none = true
    ∧ is_tags_safe_to_delete (some []) = true
    ∧ is_tags_safe_to_delete none = is_tags_safe_to_delete (some []) :=
  ⟨rfl, rfl, rfl⟩

/-- Claim C7: any version whose `created_at` does not parse as the fixed
pattern `YYYY-MM-DDTHH:MM:SSZ` makes the classification of its whole version
list raise (propagated `ValueError`); it is never silently classified.
Sample malformed strings indeed fail to parse. -/
theorem claim7_parse_failure :
    (∀ (now : Int) (vs : List PackageVersion) (v : PackageVersion), v ∈ vs →
      parseTimestamp v.created_at = none →
      isOkE (get_outdated_versions now vs) = false)
    ∧ parseTimestamp "2024-01-01T00:00:00" = none
    ∧ parseTimestamp "2024-01-01 00:00:00Z" = none
    ∧ parseTimestamp "2024-13-01T00:00:00Z" = none
    ∧ parseTimestamp "01/01/2024" = none := by
  refine ⟨?_, rfl, rfl, rfl, rfl⟩
  intro now vs v hv hp
  exact outdatedLoop_bad (now - 30 * 86400) vs v hv (Or.inl hp)

/-- Witness for C7: a version with an unparseable timestamp makes the
classification raise. -/
theorem claim7_witness :
    isOkE (get_outdated_versions 0 [mkVer 7 "not-a-timestamp" (some [])]) = false :=
  claim7_parse_failure.1 0 [mkVer 7 "not-a-timestamp" (some [])]
    (mkVer 7 "not-a-timestamp" (some [])) (by decide) rfl

/-- Claim C10: a version lacking the `"metadata"`, `"container"` or `"tags"`
key makes the evaluation of its whole version list raise (`KeyError`) instead
of being treated as untagged. -/
theorem claim10_missing_metadata (now : Int) (vs : List PackageVersion)
    (v : PackageVersion) (hv : v ∈ vs) (hmiss : tagsKeyMissing v = true) :
    isOkE (get_outdated_versions now vs) = false :=
  outdatedLoop_bad (now - 30 * 86400) vs v hv (Or.inr (tagsKeyMissing_getTags v hmiss))

/-- A version record whose `"metadata"` key is absent. -/
def vNoMeta : PackageVersion := { id := 5, created_at := "2024-01-01T00:00:00Z", metadata := none }

/-- Witness for C10: a version without `"metadata"` makes the classification
raise even though its timestamp is fine. -/
theorem claim10_witness : isOkE (get_outdated_versions 0 [vNoMeta]) = false :=
  claim10_missing_metadata 0 [vNoMeta] vNoMeta (by decide) rfl

/-- Claim C5: every `listVersions` call of a run is for a package whose name
starts with the configured name filter; a run that ends in a summary listed
exactly the matching packages, in gateway order; and the package selection
keeps exactly the packages with a matching name (exact, case-sensitive). -/
theorem claim5_package_filtering (g : Gateway) (clock : Nat → Int) (pfx : String) :
    ((lvCalls (clean_outdated_packages g clock pfx)).all fun n => startsWith n pfx) = true
    ∧ (∀ b, outcome (clean_outdated_packages g clock pfx) = .ok b →
        lvCalls (clean_outdated_packages g clock pfx) = (get_packages g pfx).map Package.name)
    ∧ (∀ p : Package, p ∈ get_packages g pfx ↔ p ∈ g.packages ∧ startsWith p.name pfx = true) := by
  refine ⟨?_, ?_, ?_⟩
  · rw [List.all_eq_true]
    intro n hn
    have hh := packageLoop_lv_headOf g clock (get_packages g pfx) 0 false
    have hmem := isHeadOf_mem hh hn
    rcases List.mem_map.mp hmem with ⟨p, hp, hpe⟩
    rcases List.mem_filter.mp hp with ⟨_, hps⟩
    rw [← hpe]
    exact hps
  · intro b hb
    exact packageLoop_lv_complete g clock (get_packages g pfx) 0 false b hb
  · intro p
    simp [get_packages, List.mem_filter]

/-- Witness for C5: in the §8 scenario the run lists versions for
`writing-api` and `writing-web` only — never for `other-svc`. -/
theorem claim5_witness :
    lvCalls (clean_outdated_packages gE2E clockE2E "writing-") =
      ["writing-api", "writing-web"] := by
  have h := (claim5_package_filtering gE2E clockE2E "writing-").2.1 true rfl
  rw [h]
  rfl

/-- A gateway on which the first DELETE of a run fails: one matching package
with two delete-verdict versions. -/
def gFail6 : Gateway :=
  { packages := [⟨1, "writing-api", 2⟩]
    versions := fun n =>
      if n = "writing-api" then
        [mkVer 1 "2024-01-01T00:00:00Z" (some []),
         mkVer 2 "2024-01-02T00:00:00Z" (some [])]
      else []
    deleteOk := fun _ i => i != 1 }

/-- Counterexample to claim C6: both versions 1 and 2 of `writing-api` hold
delete verdicts, yet the run issues a DELETE only for version 1 (whose call
fails), never for version 2 — so deleteVersion is not called for every
delete-verdict version. -/
theorem claim6_counterexample :
    clean_outdated_packages gFail6 clockE2E "writing-" =
      (["writing-api"], [("writing-api", 1)], .error .deleteFailed)
    ∧ get_outdated_versions (clockE2E 0) (gFail6.versions "writing-api") =
      .ok [mkVer 1 "2024-01-01T00:00:00Z" (some []),
           mkVer 2 "2024-01-02T00:00:00Z" (some [])] :=
  ⟨rfl, rfl⟩

/-- Amended C6: the DELETE calls of a run are an initial segment of the
delete-verdict sequence (packages in gateway-list order, versions in listed
order — so only delete-verdict versions are ever deleted, in order); in a run
that ends without an exception they are exactly that sequence. -/
theorem claim6_amended_deletions (g : Gateway) (clock : Nat → Int) (pfx : String) :
    isHeadOf (delCalls (clean_outdated_packages g clock pfx)) (expectedDeletions g clock pfx)
    ∧ (∀ b, outcome (clean_outdated_packages g clock pfx) = .ok b →
        delCalls (clean_outdated_packages g clock pfx) = expectedDeletions g clock pfx) :=
  ⟨packageLoop_del_headOf g clock (get_packages g pfx) 0 false,
   fun b hb => packageLoop_del_complete g clock (get_packages g pfx) 0 false b hb⟩

/-- Witness for the amended C6: the §8 scenario run deletes exactly its
delete-verdict versions. -/
theorem claim6_amended_witness :
    delCalls (clean_outdated_packages gE2E clockE2E "writing-") =
      expectedDeletions gE2E clockE2E "writing-" :=
  (claim6_amended_deletions gE2E clockE2E "writing-").2 true rfl

/-- A gateway on which deleting version 1 of `writing-a` fails while versions
2 (same package) and 3 (package `writing-b`) also hold delete verdicts. -/
def gFail1 : Gateway :=
  { packages := [⟨1, "writing-a", 2⟩, ⟨2, "writing-b", 1⟩]
    versions := fun n =>
      if n = "writing-a" then
        [mkVer 1 "2024-01-01T00:00:00Z" (some []),
         mkVer 2 "2024-01-02T00:00:00Z" (some [])]
      else if n = "writing-b" then [mkVer 3 "2024-01-03T00:00:00Z" (some [])]
      else []
    deleteOk := fun _ i => i != 1 }

/-- Counterexample to claim C1: the failed DELETE of version 1 ends the run —
version 2 of the same package and version 3 of the next package both hold
delete verdicts (second and third conjuncts) but are never attempted, and
`writing-b` is not even listed. -/
theorem claim1_counterexample :
    clean_outdated_packages gFail1 clockE2E "writing-" =
      (["writing-a"], [("writing-a", 1)], .error .deleteFailed)
    ∧ get_outdated_versions (clockE2E 0) (gFail1.versions "writing-a") =
      .ok [mkVer 1 "2024-01-01T00:00:00Z" (some []),
           mkVer 2 "2024-01-02T00:00:00Z" (some [])]
    ∧ get_outdated_versions (clockE2E 1) (gFail1.versions "writing-b") =
      .ok [mkVer 3 "2024-01-03T00:00:00Z" (some [])] :=
  ⟨rfl, rfl, rfl⟩

/-- Amended C1: a DELETE failure is surfaced as the run's propagated
`deleteFailed` outcome, and it aborts the run at once — the run ends in
`deleteFailed` exactly when its last attempted DELETE call failed and every
earlier one succeeded; in every other run all attempted DELETE calls
succeeded. -/
theorem claim1_amended_failure_aborts (g : Gateway) (clock : Nat → Int) (pfx : String) :
    (outcome (clean_outdated_packages g clock pfx) = .error .deleteFailed ↔
      ∃ p x, delCalls (clean_outdated_packages g clock pfx) = p ++ [x] ∧
        g.deleteOk x.1 x.2 = false ∧ ∀ y ∈ p, g.deleteOk y.1 y.2 = true)
    ∧ (outcome (clean_outdated_packages g clock pfx) ≠ .error .deleteFailed →
        ∀ y ∈ delCalls (clean_outdated_packages g clock pfx), g.deleteOk y.1 y.2 = true) := by
  constructor
  · constructor
    · intro he
      exact packageLoop_del_err g clock (get_packages g pfx) 0 false he
    · rintro ⟨p, x, hp, hx, hall⟩
      by_contra hne
      have hmem : x ∈ delCalls (clean_outdated_packages g clock pfx) := by
        rw [hp]
        exact List.mem_append_right p (by simp)
      have hok := packageLoop_all_ok g clock (get_packages g pfx) 0 false hne x hmem
      rw [hok] at hx
      cases hx
  · intro hne y hy
    exact packageLoop_all_ok g clock (get_packages g pfx) 0 false hne y hy

/-- Witness for the amended C1: on `gFail1` the single attempted DELETE call
failed, so the run's outcome is the propagated deletion error. -/
theorem claim1_amended_witness :
    outcome (clean_outdated_packages gFail1 clockE2E "writing-") = .error .deleteFailed :=
  (claim1_amended_failure_aborts gFail1 clockE2E "writing-").1.mpr
    ⟨[], ("writing-a", 1), rfl, rfl, by simp⟩

/-- A gateway with a single delete-verdict version whose DELETE fails. -/
def gFail8 : Gateway :=
  { packages := [⟨1, "writing-x", 1⟩]
    versions := fun n =>
      if n = "writing-x" then [mkVer 9 "2024-01-01T00:00:00Z" (some [])] else []
    deleteOk := fun _ _ => false }

/-- Counterexample to claim C8: a deletion was attempted (the DELETE-call
trace is nonempty) but the run produces no final summary at all — the
outcome is a propagated exception, not the "cleanup performed" report the
claim requires for runs with attempted deletions. -/
theorem claim8_counterexample :
    clean_outdated_packages gFail8 clockE2E "writing-" =
      (["writing-x"], [("writing-x", 9)], .error .deleteFailed) := rfl

/-- Amended C8: only a run that ends without an exception produces a summary;
such a run reports "cleanup performed" (flag true) iff at least one DELETE
call was made (all of which then succeeded), and "nothing outdated found"
(flag false) iff zero versions of the run received a delete verdict. -/
theorem claim8_amended_summary (g : Gateway) (clock : Nat → Int) (pfx : String) (b : Bool)
    (hok : outcome (clean_outdated_packages g clock pfx) = .ok b) :
    (b = true ↔ delCalls (clean_outdated_packages g clock pfx) ≠ [])
    ∧ (b = false ↔ expectedDeletions g clock pfx = []) := by
  have h1 := packageLoop_flag g clock (get_packages g pfx) 0 false b hok
  have h2 := packageLoop_del_complete g clock (get_packages g pfx) 0 false b hok
  constructor
  · constructor
    · intro hb
      rcases h1.mp hb with h | h
      · cases h
      · exact h
    · intro hne
      exact h1.mpr (Or.inr hne)
  · constructor
    · intro hb
      by_contra hne
      have htr : delCalls (clean_outdated_packages g clock pfx) ≠ [] := by
        intro h0
        apply hne
        show expectedFrom g clock 0 (get_packages g pfx) = []
        rw [← h2]
        exact h0
      have hb2 : b = true := h1.mpr (Or.inr htr)
      rw [hb] at hb2
      cases hb2
    · intro hexp
      cases hb : b with
      | false => rfl
      | true =>
        exfalso
        rcases h1.mp hb with h | h
        · cases h
        · apply h
          rw [h2]
          exact hexp

/-- Witness for the amended C8: the §8 scenario run ends `.ok true`, reports
cleanup performed, made DELETE calls, and its delete-verdict list is
nonempty. -/
theorem claim8_amended_witness :
    (true = true ↔ delCalls (clean_outdated_packages gE2E clockE2E "writing-") ≠ [])
    ∧ (true = false ↔ expectedDeletions gE2E clockE2E "writing-" = []) :=
  claim8_amended_summary gE2E clockE2E "writing-" true rfl

/-- Two matching packages holding versions with identical `created_at` and
identical metadata (hence identical tags). -/
def gC4 : Gateway :=
  { packages := [⟨1, "writing-a", 1⟩, ⟨2, "writing-b", 1⟩]
    versions := fun n =>
      if n = "writing-a" then [mkVer 1 "2024-01-01T00:00:00Z" (some [])]
      else if n = "writing-b" then [mkVer 2 "2024-01-01T00:00:00Z" (some [])]
      else []
    deleteOk := fun _ _ => true }

/-- A clock that advances one day between successive reads, starting at
2024-01-31T00:00:00Z (exactly 30 days after the versions' creation). -/
def driftClock : Nat → Int := fun k => (epochSecs 2024 1 31 0 0 0 : Int) + k * 86400

/-- Counterexample to claim C4: in one run, two versions with identical
`created_at` and identical metadata (second and third conjuncts) receive
different verdicts — the one in `writing-a` is kept, the one in `writing-b`
is deleted — because the orchestrator takes a fresh clock read for each
package; no single `now` instant determines all verdicts of the run. -/
theorem claim4_counterexample :
    clean_outdated_packages gC4 driftClock "writing-" =
      (["writing-a", "writing-b"], [("writing-b", 2)], .ok true)
    ∧ (gC4.versions "writing-a").map PackageVersion.created_at =
      (gC4.versions "writing-b").map PackageVersion.created_at
    ∧ (gC4.versions "writing-a").map PackageVersion.metadata =
      (gC4.versions "writing-b").map PackageVersion.metadata :=
  ⟨rfl, rfl, rfl⟩

/-- Amended C4: each verdict is a deterministic function of the data and the
clock read of its package — the run consumes at most one clock read per
qualifying package (read `k` for the `k`-th package), and the entire run
outcome depends on the clock only through those reads. -/
theorem claim4_amended_clock_per_package (g : Gateway) (pfx : String) (c1 c2 : Nat → Int)
    (hagree : ∀ k, k < (get_packages g pfx).length → c1 k = c2 k) :
    clean_outdated_packages g c1 pfx = clean_outdated_packages g c2 pfx := by
  unfold clean_outdated_packages
  apply packageLoop_clock_ext
  intro j hj
  simpa using hagree j hj

/-- The §8 clock truncated after its first two reads. -/
def clockE2Ecut : Nat → Int := fun k => if k < 2 then (epochSecs 2024 2 10 0 0 0 : Int) else 0

/-- Witness for the amended C4: changing the clock from read number 2 onward
does not change the two-package §8 run. -/
theorem claim4_amended_witness :
    clean_outdated_packages gE2E clockE2E "writing-" =
      clean_outdated_packages gE2E clockE2Ecut "writing-" :=
  claim4_amended_clock_per_package gE2E "writing-" clockE2E clockE2Ecut (by
    intro k hk
    have hlen : (get_packages gE2E "writing-").length = 2 := rfl
    rw [hlen] at hk
    simp [clockE2E, clockE2Ecut, hk])
